import Mathlib

/-!
Verification development for the Crawler repository.

Shallow embedding of the crawl-orchestration core: the per-domain rate
limiter (`crawler/crawler_core/rate_limiter.py`), the task scheduler
(`crawler/task_manager/task_scheduler.py`), the retrying request executor
(`crawler/crawler_core/request_manager.py`), the spider's URL validation and
pagination loop (`crawler/crawler_core/spider.py`), and the content-pattern
analyzer (`quant_crawler/crawler_core/content_analyzer.py`).

Python dicts are embedded as insertion-ordered association lists; `datetime`
timestamps and float scores are embedded as rationals; coroutine suspension
(`asyncio.sleep`) is embedded as explicit time accounting; network responses
are an oracle parameter of the embedding.
-/

/-- Lookup in an insertion-ordered association list (Python `d[k]` / `d.get(k)`). -/
def dictGet {α : Type} (d : List (String × α)) (k : String) : Option α :=
  match d with
  | [] => none
  | (k2, v) :: rest => if k2 = k then some v else dictGet rest k

/-- Assignment `d[k] = v` on an insertion-ordered association list: an existing
key keeps its position, a new key is appended at the end (Python dict semantics). -/
def dictSet {α : Type} (d : List (String × α)) (k : String) (v : α) : List (String × α) :=
  match d with
  | [] => [(k, v)]
  | (k2, v2) :: rest => if k2 = k then (k, v) :: rest else (k2, v2) :: dictSet rest k v

/-- Deletion `del d[k]` on an insertion-ordered association list. -/
def dictDel {α : Type} (d : List (String × α)) (k : String) : List (String × α) :=
  match d with
  | [] => []
  | (k2, v2) :: rest => if k2 = k then rest else (k2, v2) :: dictDel rest k

/-- Right-biased merge: `base.copy()` followed by `base.update(extra)`
(Python dict `update`: existing keys keep their position and take the new
value, new keys are appended in order). -/
def dictUpdate {α : Type} (base extra : List (String × α)) : List (String × α) :=
  extra.foldl (fun acc p => dictSet acc p.1 p.2) base

/- ### RateLimiter (crawler/crawler_core/rate_limiter.py) -/

/-- State of `RateLimiter`: `self.rates` (domain -> requests per second) and
`self.last_request` (domain -> last request time). -/
structure RateLimiterState where
  rates : List (String × ℚ)
  last_request : List (String × ℚ)
deriving DecidableEq

/-- Embedding of `RateLimiter.acquire(domain)` called at time `now`.
Mirrors the source: if the domain has no configured rate, return at once;
otherwise if `now - last_request[domain] < 1/rate`, sleep the difference;
then store `now` (the time sampled BEFORE the sleep) in `last_request` and
return.  The returned rational is the completion time (`now` plus any sleep). -/
def RateLimiter.acquire (st : RateLimiterState) (domain : String) (now : ℚ) :
    RateLimiterState × ℚ :=
  match dictGet st.rates domain with
  | none => (st, now)
  | some rate =>
      let sleep : ℚ :=
        match dictGet st.last_request domain with
        | some t =>
            let time_diff := now - t
            if time_diff < 1 / rate then 1 / rate - time_diff else 0
        | none => 0
      ({ st with last_request := dictSet st.last_request domain now }, now + sleep)

/-- Embedding of `RateLimiter.update_rate(domain, requests_per_second)`. -/
def RateLimiter.update_rate (st : RateLimiterState) (domain : String) (rps : ℚ) :
    RateLimiterState :=
  { st with rates := dictSet st.rates domain rps }

/- ### TaskScheduler (crawler/task_manager/task_scheduler.py) -/

/-- A task payload: an arbitrary key-value record (named `TaskRec` because
`Task` is taken by the Lean prelude). -/
abbrev TaskRec := List (String × String)

/-- State of `TaskScheduler`: `self.scheduled_tasks`, a dict from task id to
(task, schedule_time). -/
structure TaskSchedulerState where
  scheduled_tasks : List (String × (TaskRec × ℚ))
deriving DecidableEq

/-- Embedding of `TaskScheduler.schedule_task`: the task id is
`str(len(self.scheduled_tasks))`, derived from the current dict size. -/
def TaskScheduler.schedule_task (st : TaskSchedulerState) (task : TaskRec)
    (schedule_time : ℚ) : TaskSchedulerState × String :=
  let task_id := toString st.scheduled_tasks.length
  ({ scheduled_tasks := dictSet st.scheduled_tasks task_id (task, schedule_time) },
   task_id)

/-- Embedding of `TaskScheduler.cancel_task`. -/
def TaskScheduler.cancel_task (st : TaskSchedulerState) (task_id : String) :
    TaskSchedulerState × Bool :=
  match dictGet st.scheduled_tasks task_id with
  | some _ => ({ scheduled_tasks := dictDel st.scheduled_tasks task_id }, true)
  | none => (st, false)

/- ### RequestManager (crawler/crawler_core/request_manager.py) -/

/-- Outcome of one network attempt, the oracle of the embedding: either a
response with an HTTP status and a body, or a transport error
(`aiohttp.ClientError`). -/
inductive Outcome where
  | resp (status : Nat) (body : String)
  | err
deriving DecidableEq

/-- The failure surfaced by `make_request`: `response.raise_for_status()` on a
4xx/5xx final attempt, the re-raised `aiohttp.ClientError` of a final transport
failure, or the generic `Exception` raised after the loop falls through. -/
inductive ReqError where
  | httpError (status : Nat)
  | clientError
  | exhausted
deriving DecidableEq

/-- Embedding of the retry loop `for attempt in range(self.max_retries)` of
`RequestManager.make_request`.  `rem + 1` is the number of attempts still
available including the current one, so `attempt < self.max_retries - 1`
is `rem ≠ 0`.  `slept` accumulates the `asyncio.sleep(self.delay * (attempt
+ 1))` backoff.  Status 200 returns the body; any other status backs off, or
on the final attempt calls `raise_for_status` (which raises only for status
>= 400, otherwise the loop ends and the trailing `raise Exception(...)`
fires); a transport error backs off, or is re-raised on the final attempt. -/
def mrGo (delay : Nat) (out : Nat → Outcome) :
    Nat → Nat → Nat → Except ReqError String × Nat
  | _attempt, 0, slept => (.error .exhausted, slept)
  | attempt, rem + 1, slept =>
    match out attempt with
    | .resp status body =>
        if status = 200 then (.ok body, slept)
        else if rem ≠ 0 then
          mrGo delay out (attempt + 1) rem (slept + delay * (attempt + 1))
        else if 400 ≤ status then (.error (.httpError status), slept)
        else (.error .exhausted, slept)
    | .err =>
        if rem ≠ 0 then
          mrGo delay out (attempt + 1) rem (slept + delay * (attempt + 1))
        else (.error .clientError, slept)

/-- State of `RequestManager`: retry policy, default header dict, proxy, and
whether the lazily created `_session` exists. -/
structure RequestManagerState where
  max_retries : Nat
  delay : Nat
  headers : List (String × String)
  proxy : Option String
  session : Bool
deriving DecidableEq

/-- Embedding of `RequestManager.make_request(url, method, headers)`.  Creates
the session lazily, builds `merged_headers = self.headers.copy()` updated with
the per-call headers, and runs the retry loop.  Returns ((result, total time
slept in backoff), headers used for the request, post-call object state). -/
def RequestManager.make_request (st : RequestManagerState) (out : Nat → Outcome)
    (headers : Option (List (String × String))) :
    (Except ReqError String × Nat) × List (String × String) × RequestManagerState :=
  let st := if st.session then st else { st with session := true }
  let merged_headers :=
    match headers with
    | none => st.headers
    | some h => dictUpdate st.headers h
  (mrGo st.delay out 0 st.max_retries 0, merged_headers, st)

/-- Whether an attempt outcome is the one success case of the loop: a response
with status exactly 200. -/
def isHit : Outcome → Bool
  | .resp status _ => status == 200
  | .err => false

/-- The triangular sum 1 + 2 + ... + n. -/
def sumTo : Nat → Nat
  | 0 => 0
  | n + 1 => sumTo n + (n + 1)

/-- Total backoff multiplier accumulated by `rem` consecutive failed attempts
starting at index `attempt`: a sleep of `attempt + 1` units of `delay` after
every failed attempt except the last remaining one. -/
def sleepSum : Nat → Nat → Nat
  | _, 0 => 0
  | _, 1 => 0
  | a, n + 2 => (a + 1) + sleepSum (a + 1) (n + 1)

/- ### Spider pagination (crawler/crawler_core/spider.py) -/

/-- A page result as `Spider.crawl` returns it: a Python dict (keys `url`,
`html`, `timestamp`, `parsed_data`). -/
abbrev PageDict := List (String × String)

/-- Page-URL construction of `crawl_with_pagination`: append
`page_param=<index>`, with `&` if the base URL already contains a query
(`"?" in base_url`), else with `?`. -/
def pageUrl (base_url page_param : String) (current_page : Nat) : String :=
  if base_url.data.contains '?' then
    base_url ++ ("&") ++ page_param ++ ("=") ++ toString current_page
  else
    base_url ++ ("?") ++ page_param ++ ("=") ++ toString current_page

/-- Embedding of the `while current_page < start_page + max_pages` loop of
`Spider.crawl_with_pagination`; `fuel = start_page + max_pages - current_page`
counts the remaining iterations.  `crawlF` is the oracle for `self.crawl`
(`Except.error` = the call raised).  A failed page crawl, an empty (falsy)
page dict, a missing `html` key (a `KeyError` caught by the page-level
`except`) or an empty child-URL list breaks the loop; a failed or falsy child
crawl is skipped; successful child results are appended in order. -/
def crawlPagesLoop (crawlF : String → Except Unit PageDict)
    (pageParseF : String → List String) (base_url page_param : String) :
    Nat → Nat → List PageDict → List PageDict
  | _, 0, results => results
  | current_page, fuel + 1, results =>
    match crawlF (pageUrl base_url page_param current_page) with
    | .error _ => results
    | .ok page_content =>
      if page_content.isEmpty then results
      else
        match dictGet page_content ("html") with
        | none => results
        | some html =>
          let urls := pageParseF html
          if urls.isEmpty then results
          else
            crawlPagesLoop crawlF pageParseF base_url page_param
              (current_page + 1) fuel
              (results ++ urls.filterMap (fun u =>
                match crawlF u with
                | .error _ => none
                | .ok content => if content.isEmpty then none else some content))

/-- Embedding of `Spider.crawl_with_pagination(base_url, page_parser,
start_page, max_pages, page_param)`, parametrized by the `self.crawl` oracle
and the page-link callback. -/
def Spider.crawl_with_pagination (crawlF : String → Except Unit PageDict)
    (pageParseF : String → List String) (base_url : String)
    (start_page max_pages : Nat) (page_param : String) : List PageDict :=
  crawlPagesLoop crawlF pageParseF base_url page_param start_page max_pages []

/-- Concrete crawl oracle for the C6 witness: page 1 and page 2 of base `b`
succeed, child `c1` succeeds, everything else (including child `c2`) raises. -/
def c6crawlF : String → Except Unit PageDict := fun u =>
  if u = ("b?page=1") then Except.ok [(("html"), ("H1"))]
  else if u = ("b?page=2") then Except.ok [(("html"), ("H2"))]
  else if u = ("c1") then Except.ok [(("url"), ("c1"))]
  else Except.error ()

/-- Concrete page-link callback for the C6 witness: page 1's HTML yields two
child URLs, page 2's HTML yields none. -/
def c6parseF : String → List String := fun h =>
  if h = ("H1") then [("c1"), ("c2")] else []

/- ### Spider URL validation (crawler/crawler_core/spider.py)

`validate_url` compiles the pattern

  ^https?://(?:(?:[A-Z0-9](?:[A-Z0-9-]{0,61}[A-Z0-9])?\.)+[A-Z]{2,6}\.?|
  localhost|\d{1,3}\.\d{1,3}\.\d{1,3}\.\d{1,3})(?::\d+)?(?:/?|[/?]\S+)$

with `re.IGNORECASE` and tests `re.match`.  The embedding is a backtracking
matcher: a regex piece maps an input suffix to the list of ALL suffixes left
after a possible match, so the pattern accepts exactly when some enumeration
reaches the final `$` (which in Python matches at the end of the string or
just before one trailing newline). -/

/-- A regex piece: maps an input suffix to every suffix a match can leave. -/
abbrev RegexM := List Char → List (List Char)

/-- Match the empty string. -/
def mEps : RegexM := fun s => [s]

/-- Match one character satisfying `p`. -/
def mOne (p : Char → Bool) : RegexM := fun s =>
  match s with
  | [] => []
  | c :: cs => if p c then [cs] else []

/-- Concatenation of two pieces. -/
def mSeq (a b : RegexM) : RegexM := fun s => (a s).flatMap b

/-- Alternation of two pieces. -/
def mAlt (a b : RegexM) : RegexM := fun s => a s ++ b s

/-- `x?`: one occurrence or none. -/
def mOpt (a : RegexM) : RegexM := mAlt a mEps

/-- `[p]{0,n}`: between 0 and `n` characters satisfying `p`. -/
def mClassUpTo (p : Char → Bool) : Nat → RegexM
  | 0 => mEps
  | n + 1 => fun s =>
      s :: (match s with
            | [] => []
            | c :: cs => if p c then mClassUpTo p n cs else [])

/-- All suffixes after one or more characters satisfying `p` (`[p]+`). -/
def mClassPlusAux (p : Char → Bool) : List Char → List (List Char)
  | [] => []
  | c :: cs => if p c then cs :: mClassPlusAux p cs else []

/-- `[p]+`: one or more characters satisfying `p`. -/
def mClassPlus (p : Char → Bool) : RegexM := fun s => mClassPlusAux p s

/-- `(?:x)+` for a piece that always consumes at least one character; `fuel`
bounds the number of repetitions (the callers pass the input length, which is
complete because each repetition of the pieces used here consumes >= 2
characters). -/
def mPlusFuel (a : RegexM) : Nat → RegexM
  | 0 => fun _ => []
  | fuel + 1 => fun s => (a s).flatMap (fun s2 => s2 :: mPlusFuel a fuel s2)

/-- Case-insensitive comparison of an input character `x` against a lowercase
or non-letter pattern character `target` (`re.IGNORECASE` over ASCII):
an uppercase `x` (codepoint 65-90) matches when lowering it by 32 hits
`target`, any other `x` must equal `target`. -/
def eqCI (target x : Char) : Bool :=
  if 65 ≤ x.toNat ∧ x.toNat ≤ 90 then x.toNat + 32 == target.toNat
  else x == target

/-- Case-insensitive literal: the pattern characters in sequence. -/
def mLitCI : List Char → RegexM
  | [] => mEps
  | c :: cs => mSeq (mOne (eqCI c)) (mLitCI cs)

/-- `[A-Z0-9]` with `re.IGNORECASE`: ASCII letters (either case, codepoints
97-122 and 65-90) and digits (48-57). -/
def isAlnumCI (c : Char) : Bool :=
  decide (97 ≤ c.toNat ∧ c.toNat ≤ 122) || decide (65 ≤ c.toNat ∧ c.toNat ≤ 90) ||
    decide (48 ≤ c.toNat ∧ c.toNat ≤ 57)

/-- `[A-Z0-9-]` with `re.IGNORECASE`. -/
def isAlnumDashCI (c : Char) : Bool := isAlnumCI c || c == '-'

/-- `[A-Z]` with `re.IGNORECASE`: ASCII letters of either case. -/
def isAlphaCI (c : Char) : Bool :=
  decide (97 ≤ c.toNat ∧ c.toNat ≤ 122) || decide (65 ≤ c.toNat ∧ c.toNat ≤ 90)

/-- `\d`: an ASCII digit. -/
def isDigitChar (c : Char) : Bool := decide (48 ≤ c.toNat ∧ c.toNat ≤ 57)

/-- `\S`: not a whitespace character (space, tab, newline, carriage return,
vertical tab, form feed). -/
def isNonSpace (c : Char) : Bool :=
  !(c == ' ' || c == '\t' || c == '\n' || c == '\r' || c == '\x0b' || c == '\x0c')

/-- One domain label with its trailing dot:
`[A-Z0-9](?:[A-Z0-9-]{0,61}[A-Z0-9])?\.`. -/
def mLabelDot : RegexM :=
  mSeq (mOne isAlnumCI)
    (mSeq (mOpt (mSeq (mClassUpTo isAlnumDashCI 61) (mOne isAlnumCI)))
      (mOne (fun c => c == '.')))

/-- The TLD `[A-Z]{2,6}`: two letters then up to four more. -/
def mTld : RegexM :=
  mSeq (mOne isAlphaCI) (mSeq (mOne isAlphaCI) (mClassUpTo isAlphaCI 4))

/-- The domain alternative `(?:label\.)+[A-Z]{2,6}\.?`. -/
def mDomain (fuel : Nat) : RegexM :=
  mSeq (mPlusFuel mLabelDot fuel)
    (mSeq mTld (mOpt (mOne (fun c => c == '.'))))

/-- One IPv4 octet group `\d{1,3}`. -/
def mOctet : RegexM := mSeq (mOne isDigitChar) (mClassUpTo isDigitChar 2)

/-- The dotted-quad alternative `\d{1,3}\.\d{1,3}\.\d{1,3}\.\d{1,3}`. -/
def mIpv4 : RegexM :=
  mSeq mOctet (mSeq (mOne (fun c => c == '.'))
    (mSeq mOctet (mSeq (mOne (fun c => c == '.'))
      (mSeq mOctet (mSeq (mOne (fun c => c == '.')) mOctet)))))

/-- The host group: domain-with-TLD, `localhost`, or dotted IPv4. -/
def mHost (fuel : Nat) : RegexM :=
  mAlt (mDomain fuel) (mAlt (mLitCI ("localhost").data) mIpv4)

/-- The optional port `(?::\d+)?`. -/
def mPort : RegexM :=
  mOpt (mSeq (mOne (fun c => c == ':')) (mClassPlus isDigitChar))

/-- The path/query tail `(?:/?|[/?]\S+)`. -/
def mTail : RegexM :=
  mAlt (mOpt (mOne (fun c => c == '/')))
    (mSeq (mOne (fun c => c == '/' || c == '?')) (mClassPlus isNonSpace))

/-- The whole `url_pattern` applied at the start of the input (`re.match`):
every suffix some full-pattern match can leave. -/
def urlRegexMatch (s : List Char) : List (List Char) :=
  (mSeq (mLitCI ("http").data)
    (mSeq (mOpt (mOne (eqCI 's')))
      (mSeq (mLitCI ("://").data)
        (mSeq (mHost (s.length + 1)) (mSeq mPort mTail))))) s

/-- Embedding of `Spider.validate_url`: the pattern matches and the final `$`
holds — nothing is left, or exactly one trailing newline. -/
def Spider.validate_url (url : String) : Bool :=
  (urlRegexMatch url.data).any (fun r => r == [] || r == ['\n'])

/- Spec-side characterization of `validate_url` (claim C5).  The following
predicates are written from the spec's words — "accepts only `http`/`https`
schemes; requires a well-formed host (domain-with-TLD, `localhost`, or dotted
IPv4), optional port, optional path/query; rejects all else (case-insensitive
scheme/host matching)" — independently of the matcher above, to be compared
with it. -/

/-- `pre` matches the literal `lit` character by character,
case-insensitively. -/
def LitCIMatch : List Char → List Char → Prop
  | [], pre => pre = []
  | c :: cs, pre => ∃ x rest, pre = x :: rest ∧ eqCI c x = true ∧ LitCIMatch cs rest

/-- A well-formed scheme: `http://` or `https://`, case-insensitively. -/
def IsSchemeCI (pre : List Char) : Prop :=
  LitCIMatch (("http://").data) pre ∨ LitCIMatch (("https://").data) pre

/-- A well-formed domain label: a single alphanumeric character, or a run that
starts and ends alphanumeric with up to 61 letters/digits/hyphens between
(at most 63 characters in total). -/
def IsLabel (body : List Char) : Prop :=
  (∃ c, body = [c] ∧ isAlnumCI c = true) ∨
  (∃ c mid d, body = c :: mid ++ [d] ∧ isAlnumCI c = true ∧ isAlnumCI d = true ∧
    mid.length ≤ 61 ∧ ∀ x ∈ mid, isAlnumDashCI x = true)

/-- A domain label together with its dot separator. -/
def LabelDotL (x : List Char) : Prop :=
  ∃ body, x = body ++ [('.')] ∧ IsLabel body

/-- `pre` splits into exactly `k` consecutive pieces, each in `L`. -/
def RepN (L : List Char → Prop) : Nat → List Char → Prop
  | 0, pre => pre = []
  | k + 1, pre => ∃ x y, pre = x ++ y ∧ L x ∧ RepN L k y

/-- A well-formed TLD: two to six ASCII letters, case-insensitively. -/
def IsTld (t : List Char) : Prop :=
  2 ≤ t.length ∧ t.length ≤ 6 ∧ ∀ c ∈ t, isAlphaCI c = true

/-- A domain-with-TLD host: one or more dot-terminated labels, then a TLD,
then an optional trailing dot. -/
def IsDomainHost (h : List Char) : Prop :=
  ∃ k labels t d, h = labels ++ (t ++ d) ∧ RepN LabelDotL (k + 1) labels ∧
    IsTld t ∧ (d = [] ∨ d = [('.')])

/-- One dotted-quad group: one to three ASCII digits. -/
def IsOctet (o : List Char) : Prop :=
  1 ≤ o.length ∧ o.length ≤ 3 ∧ ∀ c ∈ o, isDigitChar c = true

/-- A dotted-IPv4 host: four dot-separated digit groups. -/
def IsIpv4L (h : List Char) : Prop :=
  ∃ o1 o2 o3 o4,
    h = o1 ++ ('.') :: (o2 ++ ('.') :: (o3 ++ ('.') :: o4)) ∧
    IsOctet o1 ∧ IsOctet o2 ∧ IsOctet o3 ∧ IsOctet o4

/-- A well-formed host: domain-with-TLD, `localhost` (case-insensitively), or
dotted IPv4. -/
def IsHostL (h : List Char) : Prop :=
  IsDomainHost h ∨ LitCIMatch (("localhost").data) h ∨ IsIpv4L h

/-- An optional port: empty, or a colon followed by at least one digit. -/
def IsPortL (p : List Char) : Prop :=
  p = [] ∨ ∃ ds, p = (':') :: ds ∧ ds ≠ [] ∧ ∀ c ∈ ds, isDigitChar c = true

/-- An optional path/query tail: empty, a bare slash, or a slash or question
mark followed by at least one non-whitespace character. -/
def IsTailL (t : List Char) : Prop :=
  t = [] ∨ t = [('/')] ∨
    ∃ c rest, t = c :: rest ∧ (c = ('/') ∨ c = ('?')) ∧ rest ≠ [] ∧
      ∀ x ∈ rest, isNonSpace x = true

/-- What Python's `$` may leave unconsumed: nothing, or one trailing
newline. -/
def IsEndL (e : List Char) : Prop := e = [] ∨ e = [('\n')]

/-- The spec's well-formed-URL set: an `http`/`https` scheme, a well-formed
host, an optional port and an optional path/query (plus Python's `$`
trailing-newline tolerance). -/
def WellFormedUrlCI (u : String) : Prop :=
  ∃ scheme host port tail endl,
    u.data = scheme ++ host ++ port ++ tail ++ endl ∧
    IsSchemeCI scheme ∧ IsHostL host ∧ IsPortL port ∧ IsTailL tail ∧ IsEndL endl

/-- The domain alternative with the repetition count bounded by the matcher's
fuel (the bound is discharged at the top level, where the fuel is the input
length plus one). -/
def HostLB (bound : Nat) (h : List Char) : Prop :=
  (∃ k, k + 1 ≤ bound ∧ ∃ labels t d, h = labels ++ (t ++ d) ∧
    RepN LabelDotL (k + 1) labels ∧ IsTld t ∧ (d = [] ∨ d = [('.')])) ∨
  LitCIMatch (("localhost").data) h ∨ IsIpv4L h

/-- Soundness-and-completeness statement form for a regex piece: its match
results on `s` are exactly the suffixes `r` with `s = pre ++ r` for a
consumed prefix `pre` in the piece's language `L`. -/
def MSound (a : RegexM) (L : List Char → Prop) : Prop :=
  ∀ s r, r ∈ a s ↔ ∃ pre, s = pre ++ r ∧ L pre

/- ### ContentAnalyzer (quant_crawler/crawler_core/content_analyzer.py)

The analyzer works on the BeautifulSoup DOM of the page.  The embedding
represents that DOM directly: a tree of elements (tag name, optional `id`
attribute, class list, children) and text nodes; the HTML-to-DOM parse
performed by the external `bs4` library is the input boundary. -/

mutual
/-- An element or text node of the parsed page. -/
inductive HtmlNode where
  | elem (name : String) (id : Option String) (classes : List String)
      (children : HtmlForest)
  | text (s : String)
/-- A sibling sequence of nodes (children of an element, or the top level). -/
inductive HtmlForest where
  | nil
  | cons (head : HtmlNode) (tail : HtmlForest)
end

/-- A feature value attached to a pattern: `True`, a number, or a keyword
set. -/
inductive FeatVal where
  | flag (b : Bool)
  | num (q : ℚ)
  | strs (ss : List String)
deriving DecidableEq

/-- Embedding of the `ContentPattern` dataclass (scores as rationals). -/
structure ContentPatternQ where
  selector : String
  content_type : String
  importance_score : ℚ
  features : List (String × FeatVal)
deriving DecidableEq

/-- Python truthiness of the `id` attribute: absent or empty is falsy. -/
def truthyId : Option String → Option String
  | some s => if s = "" then none else some s
  | none => none

/-- `len(element.find_all())` over a children forest: the number of descendant
tags. -/
def tagsInForest : HtmlForest → Nat
  | .nil => 0
  | .cons (.text _) t => tagsInForest t
  | .cons (.elem _ _ _ cs) t => 1 + tagsInForest cs + tagsInForest t

/-- Python `str.strip` over ASCII whitespace, as a character list. -/
def pyStrip (s : String) : List Char :=
  ((s.data.dropWhile (fun c =>
      c == ' ' || c == '\t' || c == '\n' || c == '\r' || c == '\x0b' || c == '\x0c')).reverse.dropWhile
    (fun c =>
      c == ' ' || c == '\t' || c == '\n' || c == '\r' || c == '\x0b' || c == '\x0c')).reverse

/-- `len(element.get_text(strip=True))` over a children forest: total length
of the stripped descendant strings. -/
def textLenForest : HtmlForest → Nat
  | .nil => 0
  | .cons (.text s) t => (pyStrip s).length + textLenForest t
  | .cons (.elem _ _ _ cs) t => textLenForest cs + textLenForest t

/-- Tag names of the immediate element children (text children skipped), as
`_get_element_pattern` collects them. -/
def childNames : HtmlForest → List String
  | .nil => []
  | .cons (.text _) t => childNames t
  | .cons (.elem n _ _ _) t => n :: childNames t

/-- One tag of the document together with its ancestor chain.  Each chain
entry carries (tag name, 1-based `nth-of-type` position among previous
same-name element siblings, truthy id); the entry of the tag itself comes
first, ancestors follow upward; the chain ends below the `[document]` root. -/
structure TagInfo where
  name : String
  id : Option String
  classes : List String
  children : HtmlForest
  chain : List (String × Nat × Option String)

/-- Document-order (pre-order) traversal producing every tag with its chain,
as `soup.find_all()` enumerates tags.  `prevNames` holds the tag names of the
already-visited element siblings, for the `nth-of-type` count
(`find_previous_siblings(parent.name)` matches element siblings only). -/
def collectForest (anc : List (String × Nat × Option String))
    (prevNames : List String) : HtmlForest → List TagInfo
  | .nil => []
  | .cons (.text _) t => collectForest anc prevNames t
  | .cons (.elem nm idv cls cs) t =>
      let nth := (prevNames.filter (fun x => x == nm)).length + 1
      let entry := (nm, nth, truthyId idv)
      { name := nm, id := idv, classes := cls, children := cs,
        chain := entry :: anc } ::
        (collectForest (entry :: anc) [] cs ++
         collectForest anc (prevNames ++ [nm]) t)

/-- Python `sep.join(parts)`. -/
def joinSep (sep : String) : List String → String
  | [] => ""
  | [x] => x
  | x :: rest => x ++ sep ++ joinSep sep rest

/-- The path entries of `_get_unique_selector`'s fallback loop, walking the
chain upward: an ancestor with a truthy id contributes `#id` and stops the
walk, every other entry contributes `name:nth-of-type(k)`. -/
def pathEntriesFromChain : List (String × Nat × Option String) → List String
  | [] => []
  | (nm, nth, oid) :: rest =>
      match oid with
      | some i => [("#") ++ i]
      | none => (nm ++ (":nth-of-type(") ++ toString nth ++ (")")) ::
          pathEntriesFromChain rest

/-- Embedding of `ContentAnalyzer._get_unique_selector`: `#id` if the tag has
a truthy id, else `name.class1.class2` if it has classes, else the reversed
`' > '`-joined positional path up to the nearest ancestor with an id. -/
def get_unique_selector (t : TagInfo) : String :=
  match truthyId t.id with
  | some i => ("#") ++ i
  | none =>
      if !t.classes.isEmpty then
        t.name ++ (".") ++ joinSep (".") t.classes
      else
        joinSep (" > ") (pathEntriesFromChain t.chain).reverse

/-- The `semantic_elements` base scores of `_analyze_structure`, in iteration
order. -/
def semantic_elements : List (String × ℚ) :=
  [(("article"), 9 / 10), (("main"), 8 / 10), (("section"), 7 / 10),
   (("nav"), 6 / 10), (("aside"), 4 / 10)]

/-- Embedding of `ContentAnalyzer._analyze_structure`: one pattern per
semantic tag occurrence, tagged `semantic`. -/
def analyze_structure (tags : List TagInfo) : List ContentPatternQ :=
  semantic_elements.flatMap (fun se =>
    (tags.filter (fun t => t.name == se.1)).map (fun t =>
      { selector := get_unique_selector t, content_type := se.1,
        importance_score := se.2,
        features := [(("semantic"), FeatVal.flag true)] }))

/-- The `CONTENT_TYPES` keyword table, in iteration order (the Python values
are sets; only membership is observable). -/
def CONTENT_TYPES : List (String × List String) :=
  [(("article"), [("article"), ("post"), ("content"), ("main-content"), ("detail")]),
   (("list"), [("list"), ("feed"), ("timeline"), ("cards"), ("items")]),
   (("pagination"), [("pagination"), ("pages"), ("next"), ("prev")]),
   (("comments"), [("comments"), ("responses"), ("replies")]),
   (("sidebar"), [("sidebar"), ("related"), ("recommended")])]

/-- Embedding of `ContentAnalyzer._identify_content_areas`: for every tag with
a class attribute and every content type whose keyword set intersects the
classes, a 0.7-score pattern tagged with the matched keywords. -/
def identify_content_areas (tags : List TagInfo) : List ContentPatternQ :=
  (tags.filter (fun t => !t.classes.isEmpty)).flatMap (fun t =>
    CONTENT_TYPES.filterMap (fun ct =>
      let inter := ct.2.filter (fun k => t.classes.contains k)
      if inter.isEmpty then none
      else some { selector := get_unique_selector t, content_type := ct.1,
                  importance_score := 7 / 10,
                  features := [(("matched_keywords"), FeatVal.strs inter)] }))

/-- Embedding of `ContentAnalyzer._analyze_text_density`: for `div`, `article`
and `section` tags with at least one descendant tag, emit a `content` pattern
when `text_length / tags_count > 50`, scored `min(0.9, density / 1000)`. -/
def analyze_text_density (tags : List TagInfo) : List ContentPatternQ :=
  (tags.filter (fun t =>
      t.name == ("div") || t.name == ("article") || t.name == ("section"))).filterMap
    (fun t =>
      let tags_count := tagsInForest t.children
      if 0 < tags_count then
        let density : ℚ := (textLenForest t.children : ℚ) / (tags_count : ℚ)
        if 50 < density then
          some { selector := get_unique_selector t, content_type := ("content"),
                 importance_score := min (9 / 10) (density / 1000),
                 features := [(("text_density"), FeatVal.num density)] }
        else none
      else none)

/-- Embedding of `ContentAnalyzer._get_element_pattern`: the tag name followed
by the immediate child tag names, comma-joined (`None` for a falsy name). -/
def get_element_pattern (t : TagInfo) : Option String :=
  if t.name == ("") then none
  else some (joinSep (",") (t.name :: childNames t.children))

/-- One `Counter` increment: insertion-ordered, existing keys keep their
position. -/
def counterAdd (c : List (String × Nat)) (k : String) : List (String × Nat) :=
  match c with
  | [] => [(k, 1)]
  | (k2, n) :: rest =>
      if k2 = k then (k2, n + 1) :: rest else (k2, n) :: counterAdd rest k

/-- Embedding of `ContentAnalyzer._find_repeated_patterns`: count the
structure signatures of `div`, `li` and `article` tags; every signature seen
more than twice emits a `list` pattern scored `min(0.8, count / 20)`. -/
def find_repeated_patterns (tags : List TagInfo) : List ContentPatternQ :=
  let candidates := tags.filter (fun t =>
    t.name == ("div") || t.name == ("li") || t.name == ("article"))
  let counts := candidates.foldl (fun acc t =>
    match get_element_pattern t with
    | some p => counterAdd acc p
    | none => acc) []
  counts.filterMap (fun pc =>
    if 2 < pc.2 then
      some { selector := pc.1, content_type := ("list"),
             importance_score := min (8 / 10) ((pc.2 : ℚ) / 20),
             features := [(("repetition_count"), FeatVal.num (pc.2 : ℚ))] }
    else none)

/-- Embedding of `ContentAnalyzer._score_patterns` on one pattern: multiply by
1.2 for `semantic`, 1.1 for `text_density`, 1.1 for `repetition_count`
(compounding), then cap at 1.0. -/
def score_pattern (p : ContentPatternQ) : ContentPatternQ :=
  let s1 := if (dictGet p.features ("semantic")).isSome
    then p.importance_score * (12 / 10) else p.importance_score
  let s2 := if (dictGet p.features ("text_density")).isSome
    then s1 * (11 / 10) else s1
  let s3 := if (dictGet p.features ("repetition_count")).isSome
    then s2 * (11 / 10) else s2
  { p with importance_score := min 1 s3 }

/-- Stable descending insertion, matching Python's stable
`sorted(key=score, reverse=True)`: an element moves past another only when its
score is strictly larger. -/
def insertByScoreDesc (x : ContentPatternQ) :
    List ContentPatternQ → List ContentPatternQ
  | [] => [x]
  | y :: ys =>
      if x.importance_score < y.importance_score then y :: insertByScoreDesc x ys
      else x :: y :: ys

/-- Stable sort by descending `importance_score`. -/
def sortByScoreDesc : List ContentPatternQ → List ContentPatternQ
  | [] => []
  | x :: xs => insertByScoreDesc x (sortByScoreDesc xs)

/-- Embedding of `ContentAnalyzer.analyze_page` on the parsed DOM: the four
analysis passes in order, the scoring pass, then the descending sort. -/
def ContentAnalyzer.analyze_page (doc : HtmlForest) : List ContentPatternQ :=
  let tags := collectForest [] [] doc
  let patterns := analyze_structure tags ++ identify_content_areas tags ++
    analyze_text_density tags ++ find_repeated_patterns tags
  sortByScoreDesc (patterns.map score_pattern)

/-- The four suggestion buckets of `get_crawl_suggestions`. -/
structure Suggestions where
  content_selectors : List String
  list_selectors : List String
  pagination_selectors : List String
  ignore_selectors : List String
deriving DecidableEq

/-- The `for pattern in patterns` loop of `get_crawl_suggestions`: a score
below 0.3 goes to the ignore bucket (and nothing else — `continue`), then the
`elif` chain on the content type picks at most one bucket. -/
def gcsLoop : List ContentPatternQ → Suggestions → Suggestions
  | [], acc => acc
  | p :: ps, acc =>
      if p.importance_score < 3 / 10 then
        gcsLoop ps { acc with
          ignore_selectors := acc.ignore_selectors ++ [p.selector] }
      else if p.content_type = ("article") ∨ p.content_type = ("content") then
        gcsLoop ps { acc with
          content_selectors := acc.content_selectors ++ [p.selector] }
      else if p.content_type = ("list") ∨ p.content_type = ("feed") then
        gcsLoop ps { acc with
          list_selectors := acc.list_selectors ++ [p.selector] }
      else if p.content_type = ("pagination") then
        gcsLoop ps { acc with
          pagination_selectors := acc.pagination_selectors ++ [p.selector] }
      else gcsLoop ps acc

/-- Embedding of `ContentAnalyzer.get_crawl_suggestions`. -/
def ContentAnalyzer.get_crawl_suggestions (patterns : List ContentPatternQ) :
    Suggestions :=
  gcsLoop patterns ⟨[], [], [], []⟩

/-- The elif-chain condition putting a pattern in the ignore bucket. -/
def isIgnoreBucket (p : ContentPatternQ) : Bool :=
  decide (p.importance_score < 3 / 10)

/-- The elif-chain condition putting a pattern in the content bucket. -/
def isContentBucket (p : ContentPatternQ) : Bool :=
  !isIgnoreBucket p &&
    (p.content_type == ("article") || p.content_type == ("content"))

/-- The elif-chain condition putting a pattern in the list bucket. -/
def isListBucket (p : ContentPatternQ) : Bool :=
  !isIgnoreBucket p &&
    !(p.content_type == ("article") || p.content_type == ("content")) &&
    (p.content_type == ("list") || p.content_type == ("feed"))

/-- The elif-chain condition putting a pattern in the pagination bucket. -/
def isPagBucket (p : ContentPatternQ) : Bool :=
  !isIgnoreBucket p &&
    !(p.content_type == ("article") || p.content_type == ("content")) &&
    !(p.content_type == ("list") || p.content_type == ("feed")) &&
    p.content_type == ("pagination")

/-- The DOM of claim C7: a document whose only node is one bare `<article>`
element. -/
def c7doc : HtmlForest := .cons (.elem ("article") none [] .nil) .nil

/- ### Concrete traces used by the refutation theorems -/

/-- Initial rate-limiter state with domain `d` configured at 1 request/second. -/
def rlSt0 : RateLimiterState := { rates := [(("d"), (1 : ℚ))], last_request := [] }

/-- First acquire on `d` at time 0. -/
def rlA1 : RateLimiterState × ℚ := RateLimiter.acquire rlSt0 ("d") 0

/-- Second acquire on `d`, arriving at time 1/10 (after the first completed). -/
def rlA2 : RateLimiterState × ℚ := RateLimiter.acquire rlA1.1 ("d") (1 / 10)

/-- Third acquire on `d`, arriving at time 1 (exactly when the second completed). -/
def rlA3 : RateLimiterState × ℚ := RateLimiter.acquire rlA2.1 ("d") 1

/-- A low-scoring pattern for the C8 witness. -/
def c8p1 : ContentPatternQ :=
  { selector := ("a"), content_type := ("x"), importance_score := 1 / 5,
    features := [] }

/-- A pagination pattern above the ignore threshold for the C8 witness. -/
def c8p2 : ContentPatternQ :=
  { selector := ("b"), content_type := ("pagination"), importance_score := 1 / 2,
    features := [] }

/-- Scheduler trace: schedule, schedule, cancel the first id, schedule again. -/
def tsS1 : TaskSchedulerState × String :=
  TaskScheduler.schedule_task { scheduled_tasks := [] } [(("url"), ("a"))] 0

/-- Second schedule call of the scheduler trace. -/
def tsS2 : TaskSchedulerState × String :=
  TaskScheduler.schedule_task tsS1.1 [(("url"), ("b"))] 0

/-- Cancellation of the first scheduled task of the trace. -/
def tsC : TaskSchedulerState × Bool := TaskScheduler.cancel_task tsS2.1 ("0")

/-- Third schedule call, after the cancellation removed an entry. -/
def tsS3 : TaskSchedulerState × String :=
  TaskScheduler.schedule_task tsC.1 [(("url"), ("c"))] 0

/- ### Theorems -/

/-- Claim C1 (code_bug evidence): the rate invariant fails on the code.  With
domain `d` at rate R = 1, three strictly sequential `acquire` calls (each
arriving no earlier than the previous completion) complete at times 0, 1 and
11/10; the consecutive completions 1 and 11/10 are only 1/10 < 1 = 1/R apart,
because `acquire` records the timestamp sampled before its sleep. -/
theorem C1_rate_invariant_violated :
    rlA1.2 = 0 ∧ rlA2.2 = 1 ∧ rlA3.2 = 11 / 10 ∧
    rlA1.2 ≤ (1 : ℚ) / 10 ∧ rlA2.2 ≤ 1 ∧
    rlA3.2 - rlA2.2 < 1 / 1 := by
  norm_num [rlA1, rlA2, rlA3, rlSt0, RateLimiter.acquire, dictGet, dictSet]

/-- Claim C2 (code_bug evidence): task ids are not unique for the lifetime of
the scheduler.  Scheduling twice yields ids "0" and "1"; after cancelling "0",
the next `schedule_task` derives its id from the shrunken dict size and
returns "1" again, colliding with (and overwriting) the live second task. -/
theorem C2_task_id_collision :
    tsS1.2 = ("0") ∧ tsS2.2 = ("1") ∧ tsC.2 = true ∧ tsS3.2 = tsS2.2 := by
  refine ⟨?_, ?_, ?_, ?_⟩ <;> decide

/-- Helper: one-step unfolding of the retry loop. -/
theorem mrGo_succ (delay : Nat) (out : Nat → Outcome) (attempt rem slept : Nat) :
    mrGo delay out attempt (rem + 1) slept =
      match out attempt with
      | .resp status body =>
          if status = 200 then (.ok body, slept)
          else if rem ≠ 0 then
            mrGo delay out (attempt + 1) rem (slept + delay * (attempt + 1))
          else if 400 ≤ status then (.error (.httpError status), slept)
          else (.error .exhausted, slept)
      | .err =>
          if rem ≠ 0 then
            mrGo delay out (attempt + 1) rem (slept + delay * (attempt + 1))
          else (.error .clientError, slept) := rfl

/-- Helper: over the slice where every attempt fails, the retry loop ends in an
error and sleeps exactly `delay * sleepSum attempt rem`. -/
theorem mrGo_all_fail (delay : Nat) (out : Nat → Outcome) :
    ∀ rem attempt slept,
      (∀ i, attempt ≤ i → i < attempt + rem → isHit (out i) = false) →
      (∃ e, (mrGo delay out attempt rem slept).1 = Except.error e) ∧
      (mrGo delay out attempt rem slept).2 = slept + delay * sleepSum attempt rem
  | 0, attempt, slept, _ => by
      simp [mrGo, sleepSum]
  | 1, attempt, slept, hfail => by
      have h0 : isHit (out attempt) = false := hfail attempt le_rfl (by omega)
      cases hout : out attempt with
      | resp status body =>
          have hs : ¬ status = 200 := by
            simp [hout, isHit] at h0; omega
          by_cases h4 : 400 ≤ status <;>
            simp [mrGo, hout, hs, h4, sleepSum]
      | err => simp [mrGo, hout, sleepSum]
  | (n + 2), attempt, slept, hfail => by
      have h0 : isHit (out attempt) = false := hfail attempt le_rfl (by omega)
      have ih := mrGo_all_fail delay out (n + 1) (attempt + 1)
        (slept + delay * (attempt + 1))
        (fun i hi hi2 => hfail i (by omega) (by omega))
      rw [mrGo_succ]
      cases hout : out attempt with
      | resp status body =>
          have hs : ¬ status = 200 := by
            simp [hout, isHit] at h0; omega
          simp only [hs, ite_false, if_false, if_neg, Nat.succ_ne_zero, ne_eq,
            not_false_eq_true, ite_true, if_true]
          refine ⟨ih.1, ?_⟩
          rw [ih.2, sleepSum]
          ring
      | err =>
          simp only [Nat.succ_ne_zero, ne_eq, not_false_eq_true, ite_true, if_true]
          refine ⟨ih.1, ?_⟩
          rw [ih.2, sleepSum]
          ring

/-- Helper: `sleepSum a (n + 1) + sumTo a = sumTo (a + n)`. -/
theorem sleepSum_add_sumTo : ∀ n a, sleepSum a (n + 1) + sumTo a = sumTo (a + n)
  | 0, a => by simp [sleepSum]
  | (n + 1), a => by
      have ih := sleepSum_add_sumTo n (a + 1)
      show sleepSum a (n + 2) + sumTo a = sumTo (a + (n + 1))
      rw [sleepSum]
      have : a + 1 + sleepSum (a + 1) (n + 1) + sumTo a
          = sleepSum (a + 1) (n + 1) + (sumTo a + (a + 1)) := by ring
      rw [this, show sumTo a + (a + 1) = sumTo (a + 1) from rfl, ih]
      congr 1
      omega

/-- Helper: starting from attempt 0, the accumulated backoff multiplier is the
triangular sum `1 + 2 + ... + (m - 1)`. -/
theorem sleepSum_zero (m : Nat) : sleepSum 0 m = sumTo (m - 1) := by
  cases m with
  | zero => simp [sleepSum, sumTo]
  | succ n =>
      have := sleepSum_add_sumTo n 0
      simp [sumTo] at this
      simpa using this

/-- Helper: if the retry loop returns a body, some attempt in range responded
with status exactly 200 and that body. -/
theorem mrGo_ok (delay : Nat) (out : Nat → Outcome) :
    ∀ rem attempt slept body,
      (mrGo delay out attempt rem slept).1 = Except.ok body →
      ∃ i, attempt ≤ i ∧ i < attempt + rem ∧ out i = Outcome.resp 200 body
  | 0, attempt, slept, body => by simp [mrGo]
  | (rem + 1), attempt, slept, body => by
      intro hok
      cases hout : out attempt with
      | resp status body2 =>
          by_cases hs : status = 200
          · refine ⟨attempt, le_rfl, by omega, ?_⟩
            rw [hout, hs]
            simp [mrGo, hout, hs] at hok
            rw [hok]
          · by_cases hrem : rem = 0
            · subst hrem
              by_cases h4 : 400 ≤ status <;>
                simp [mrGo, hout, hs, h4] at hok
            · simp [mrGo, hout, hs, hrem] at hok
              obtain ⟨i, hi1, hi2, hi3⟩ :=
                mrGo_ok delay out rem (attempt + 1)
                  (slept + delay * (attempt + 1)) body hok
              exact ⟨i, by omega, by omega, hi3⟩
      | err =>
          by_cases hrem : rem = 0
          · subst hrem
            simp [mrGo, hout] at hok
          · simp [mrGo, hout, hrem] at hok
            obtain ⟨i, hi1, hi2, hi3⟩ :=
              mrGo_ok delay out rem (attempt + 1)
                (slept + delay * (attempt + 1)) body hok
            exact ⟨i, by omega, by omega, hi3⟩

/-- Claim C3: when all `max_retries` attempts fail (non-success status or
transport error each time), `make_request` raises rather than returning, after
backoff sleeps totaling `delay * (1 + 2 + ... + (max_retries - 1))` — a sleep
of `delay * (attempt_index + 1)` after every failed attempt except the final
one. -/
theorem C3_retry_exhaustion (st : RequestManagerState) (out : Nat → Outcome)
    (headers : Option (List (String × String)))
    (hfail : ∀ i, i < st.max_retries → isHit (out i) = false) :
    (∃ e, (RequestManager.make_request st out headers).1.1 = Except.error e) ∧
    (RequestManager.make_request st out headers).1.2 =
      st.delay * sumTo (st.max_retries - 1) := by
  have h := mrGo_all_fail st.delay out st.max_retries 0 0
    (fun i _ hi2 => hfail i (by omega))
  rw [sleepSum_zero] at h
  simp only [RequestManager.make_request]
  refine ⟨?_, ?_⟩
  · split <;> exact h.1
  · split <;> simpa using h.2

/-- Witness for C3: with `max_retries = 3`, `delay = 1` and every attempt a
transport error, `make_request` fails and sleeps 1 + 2 = 3 time units. -/
theorem C3_retry_exhaustion_witness :
    (∃ e, (RequestManager.make_request ⟨3, 1, [], none, false⟩
        (fun _ => Outcome.err) none).1.1 = Except.error e) ∧
    (RequestManager.make_request ⟨3, 1, [], none, false⟩
        (fun _ => Outcome.err) none).1.2 = 1 * sumTo (3 - 1) :=
  C3_retry_exhaustion ⟨3, 1, [], none, false⟩ (fun _ => Outcome.err) none
    (fun _ _ => rfl)

/-- Helper: if attempt `k` (in range) succeeds with status 200 and every
earlier attempt in the slice fails, the loop returns that body. -/
theorem mrGo_success (delay : Nat) (out : Nat → Outcome) (body : String) :
    ∀ rem attempt slept k, attempt ≤ k → k < attempt + rem →
      out k = Outcome.resp 200 body →
      (∀ i, attempt ≤ i → i < k → isHit (out i) = false) →
      (mrGo delay out attempt rem slept).1 = Except.ok body
  | 0, attempt, slept, k => by omega
  | (rem + 1), attempt, slept, k => by
      intro hk1 hk2 hk3 hbefore
      by_cases heq : attempt = k
      · subst heq
        simp [mrGo, hk3]
      · have hlt : attempt < k := by omega
        have h0 : isHit (out attempt) = false := hbefore attempt le_rfl hlt
        have hrem : rem ≠ 0 := by omega
        have ih := mrGo_success delay out body rem (attempt + 1)
          (slept + delay * (attempt + 1)) k (by omega) (by omega) hk3
          (fun i hi1 hi2 => hbefore i (by omega) hi2)
        cases hout : out attempt with
        | resp status body2 =>
            have hs : ¬ status = 200 := by
              simp [hout, isHit] at h0; omega
            simpa [mrGo, hout, hs, hrem] using ih
        | err => simpa [mrGo, hout, hrem] using ih

/-- Claim C4: if the target responds with success (status 200) on attempt
`k` (0-indexed, `k < max_retries`) and every earlier attempt failed,
`make_request` returns that success body and raises no error. -/
theorem C4_retry_success (st : RequestManagerState) (out : Nat → Outcome)
    (headers : Option (List (String × String))) (k : Nat) (body : String)
    (hk : k < st.max_retries)
    (hhit : out k = Outcome.resp 200 body)
    (hbefore : ∀ i, i < k → isHit (out i) = false) :
    (RequestManager.make_request st out headers).1.1 = Except.ok body := by
  have h := mrGo_success st.delay out body st.max_retries 0 0 k (by omega)
    (by omega) hhit (fun i _ hi2 => hbefore i hi2)
  simp only [RequestManager.make_request]
  split <;> simpa using h

/-- Witness for C4: with `max_retries = 3`, attempts 0 a transport error and
attempt 1 a 200 response, `make_request` returns the attempt-1 body. -/
theorem C4_retry_success_witness :
    (RequestManager.make_request ⟨3, 1, [], none, false⟩
      (fun i => if i = 1 then Outcome.resp 200 ("ok") else Outcome.err)
      none).1.1 = Except.ok ("ok") :=
  C4_retry_success ⟨3, 1, [], none, false⟩
    (fun i => if i = 1 then Outcome.resp 200 ("ok") else Outcome.err)
    none 1 ("ok") (by decide) rfl
    (fun i hi => by
      have : i = 0 := by omega
      subst this
      rfl)

/-- Claim C9: per-call headers are merged over a copy of the executor's
defaults: after a call passing headers, the default header dict (including its
User-Agent entry) is unchanged, the merged dict was used only for that request,
and a following call without per-call headers uses the pristine defaults. -/
theorem C9_headers_not_mutated (st : RequestManagerState)
    (out out2 : Nat → Outcome) (h : List (String × String)) :
    ((RequestManager.make_request st out (some h)).2.2).headers = st.headers ∧
    (RequestManager.make_request st out (some h)).2.1 = dictUpdate st.headers h ∧
    (RequestManager.make_request ((RequestManager.make_request st out (some h)).2.2)
        out2 none).2.1 = st.headers := by
  simp only [RequestManager.make_request]
  by_cases hs : st.session <;> simp [hs]

/-- Claim C10: `make_request` treats exactly status 200 as success.  It
returns a body only when some attempt in range responded with status 200 and
that body; and whenever no attempt yields status 200 — including runs whose
final attempt receives a non-200, non-4xx/5xx status such as 204 or a 3xx, for
which `raise_for_status` does not raise — it ends with a raised error, never
with a returned body. -/
theorem C10_success_is_exactly_200 (st : RequestManagerState)
    (out : Nat → Outcome) (headers : Option (List (String × String))) :
    (∀ body, (RequestManager.make_request st out headers).1.1 = Except.ok body →
      ∃ i, i < st.max_retries ∧ out i = Outcome.resp 200 body) ∧
    ((∀ i, i < st.max_retries → isHit (out i) = false) →
      ∃ e, (RequestManager.make_request st out headers).1.1 = Except.error e) := by
  constructor
  · intro body hok
    have hok2 : (mrGo st.delay out 0 st.max_retries 0).1 = Except.ok body := by
      simp only [RequestManager.make_request] at hok
      split at hok <;> simpa using hok
    obtain ⟨i, _, hi2, hi3⟩ := mrGo_ok st.delay out st.max_retries 0 0 body hok2
    exact ⟨i, by omega, hi3⟩
  · intro hfail
    have h := mrGo_all_fail st.delay out st.max_retries 0 0
      (fun i _ hi2 => hfail i (by omega))
    simp only [RequestManager.make_request]
    split <;> exact h.1

/-- Witness for C10: a run whose three attempts all return status 204 with a
non-empty body ends in a raised error, not a returned body. -/
theorem C10_success_is_exactly_200_witness :
    ∃ e, (RequestManager.make_request ⟨3, 1, [], none, false⟩
      (fun _ => Outcome.resp 204 ("body")) none).1.1 = Except.error e :=
  (C10_success_is_exactly_200 ⟨3, 1, [], none, false⟩
    (fun _ => Outcome.resp 204 ("body")) none).2 (fun _ _ => rfl)

/-- Helper: one-step unfolding of the pagination loop. -/
theorem crawlPagesLoop_succ (crawlF : String → Except Unit PageDict)
    (pageParseF : String → List String) (base_url page_param : String)
    (current_page fuel : Nat) (results : List PageDict) :
    crawlPagesLoop crawlF pageParseF base_url page_param current_page (fuel + 1)
        results =
      match crawlF (pageUrl base_url page_param current_page) with
      | .error _ => results
      | .ok page_content =>
        if page_content.isEmpty then results
        else
          match dictGet page_content ("html") with
          | none => results
          | some html =>
            let urls := pageParseF html
            if urls.isEmpty then results
            else
              crawlPagesLoop crawlF pageParseF base_url page_param
                (current_page + 1) fuel
                (results ++ urls.filterMap (fun u =>
                  match crawlF u with
                  | .error _ => none
                  | .ok content =>
                      if content.isEmpty then none else some content)) := rfl

/-- Claim C6: with a page-link callback that returns no child URLs for page
2's HTML, `crawl_with_pagination(base_url, parser, start_page := 1,
max_pages := 5)` stops after fetching page 2 and returns exactly the results
of page 1's successfully crawled (and truthy) child URLs, in order, skipping
children whose crawl raised; and if crawling a page itself raises, the whole
pagination loop aborts (second conjunct: an immediate page-1 failure returns
nothing). -/
theorem C6_pagination_termination (crawlF : String → Except Unit PageDict)
    (pageParseF : String → List String) (base_url : String)
    (p1 p2 : PageDict) (h1 h2 : String) (children : List String)
    (hp1 : crawlF (pageUrl base_url ("page") 1) = Except.ok p1)
    (hp1ne : p1.isEmpty = false)
    (hh1 : dictGet p1 ("html") = some h1)
    (hch : pageParseF h1 = children)
    (hchne : children.isEmpty = false)
    (hp2 : crawlF (pageUrl base_url ("page") 2) = Except.ok p2)
    (hp2ne : p2.isEmpty = false)
    (hh2 : dictGet p2 ("html") = some h2)
    (hnone : pageParseF h2 = []) :
    Spider.crawl_with_pagination crawlF pageParseF base_url 1 5 ("page") =
      children.filterMap (fun u =>
        match crawlF u with
        | .error _ => none
        | .ok content => if content.isEmpty then none else some content) ∧
    ∀ crawlF2 : String → Except Unit PageDict,
      crawlF2 (pageUrl base_url ("page") 1) = Except.error () →
      Spider.crawl_with_pagination crawlF2 pageParseF base_url 1 5 ("page") = [] := by
  constructor
  · rw [Spider.crawl_with_pagination,
      show (5 : Nat) = 4 + 1 from rfl, crawlPagesLoop_succ, hp1]
    simp only [hp1ne, Bool.false_eq_true, if_false, ite_false, hh1, hch, hchne]
    rw [show (1 : Nat) + 1 = 2 from rfl,
      show (4 : Nat) = 3 + 1 from rfl, crawlPagesLoop_succ, hp2]
    simp only [hp2ne, Bool.false_eq_true, if_false, ite_false, hh2, hnone,
      List.isEmpty_nil, if_true, ite_true, List.nil_append]
  · intro crawlF2 hfail
    rw [Spider.crawl_with_pagination,
      show (5 : Nat) = 4 + 1 from rfl, crawlPagesLoop_succ, hfail]

/-- Witness for C6: with the concrete oracle `c6crawlF` and callback
`c6parseF`, pagination from base `b` returns exactly the page-1 child result
for `c1`, skipping the failing child `c2` and stopping at page 2. -/
theorem C6_pagination_termination_witness :
    Spider.crawl_with_pagination c6crawlF c6parseF ("b") 1 5 ("page") =
      [("c1"), ("c2")].filterMap (fun u =>
        match c6crawlF u with
        | .error _ => none
        | .ok content => if content.isEmpty then none else some content) :=
  (C6_pagination_termination c6crawlF c6parseF ("b")
    [(("html"), ("H1"))] [(("html"), ("H2"))] ("H1") ("H2")
    [("c1"), ("c2")] (by rfl) (by rfl) (by rfl) (by rfl) (by rfl) (by rfl)
    (by rfl) (by rfl) (by rfl)).1

/-- Claim C7: for a document containing exactly one bare `<article>` element
and nothing else, `analyze_page` returns exactly one ContentPattern, with
`content_type = "article"` and `importance_score = 1` (base 0.9 times the 1.2
semantic factor, clamped to 1). -/
theorem C7_article_pattern_scoring :
    ContentAnalyzer.analyze_page c7doc =
      [{ selector := ("article:nth-of-type(1)"), content_type := ("article"),
         importance_score := 1,
         features := [(("semantic"), FeatVal.flag true)] }] := by
  norm_num [ContentAnalyzer.analyze_page, collectForest, truthyId,
    analyze_structure, semantic_elements, identify_content_areas, CONTENT_TYPES,
    analyze_text_density, find_repeated_patterns, get_element_pattern,
    counterAdd, tagsInForest, textLenForest, childNames, get_unique_selector,
    joinSep, pathEntriesFromChain, score_pattern, dictGet, sortByScoreDesc,
    insertByScoreDesc]
  refine ⟨by decide, ?_⟩
  rw [if_neg (by decide), if_neg (by decide)]
  norm_num

/-- Helper: closed form of the suggestion loop — each bucket receives, in
order, the selectors of the patterns satisfying its branch of the
`continue`/`elif` chain. -/
theorem gcsLoop_eq : ∀ (ps : List ContentPatternQ) (acc : Suggestions),
    gcsLoop ps acc =
      { content_selectors := acc.content_selectors ++
          (ps.filter isContentBucket).map (fun q => q.selector),
        list_selectors := acc.list_selectors ++
          (ps.filter isListBucket).map (fun q => q.selector),
        pagination_selectors := acc.pagination_selectors ++
          (ps.filter isPagBucket).map (fun q => q.selector),
        ignore_selectors := acc.ignore_selectors ++
          (ps.filter isIgnoreBucket).map (fun q => q.selector) }
  | [], acc => by simp [gcsLoop]
  | p :: ps, acc => by
      have ih := gcsLoop_eq ps
      by_cases h1 : p.importance_score < 3 / 10
      · have hb : isIgnoreBucket p = true := by
          simp [isIgnoreBucket, h1]
        have hc : isContentBucket p = false := by simp [isContentBucket, hb]
        have hl : isListBucket p = false := by simp [isListBucket, hb]
        have hg : isPagBucket p = false := by simp [isPagBucket, hb]
        simp only [gcsLoop, if_pos h1, ih]
        simp [List.filter_cons, hb, hc, hl, hg]
      · have hb : isIgnoreBucket p = false := by
          simp [isIgnoreBucket, h1]
        by_cases h2 : p.content_type = ("article") ∨ p.content_type = ("content")
        · have hc : isContentBucket p = true := by
            rcases h2 with h | h <;> simp [isContentBucket, hb, h]
          have hl : isListBucket p = false := by
            rcases h2 with h | h <;> simp [isListBucket, h]
          have hg : isPagBucket p = false := by
            rcases h2 with h | h <;> simp [isPagBucket, h]
          simp only [gcsLoop, if_neg h1, if_pos h2, ih]
          simp [List.filter_cons, hb, hc, hl, hg]
        · by_cases h3 : p.content_type = ("list") ∨ p.content_type = ("feed")
          · push_neg at h2
            have hc : isContentBucket p = false := by
              simp [isContentBucket, h2.1, h2.2]
            have hl : isListBucket p = true := by
              rcases h3 with h | h <;> simp [isListBucket, hb, h]
            have hg : isPagBucket p = false := by
              rcases h3 with h | h <;> simp [isPagBucket, h]
            simp only [gcsLoop, if_neg h1, if_neg (by tauto : ¬(p.content_type = ("article") ∨ p.content_type = ("content"))), if_pos h3, ih]
            simp [List.filter_cons, hb, hc, hl, hg]
          · by_cases h4 : p.content_type = ("pagination")
            · push_neg at h2 h3
              have hc : isContentBucket p = false := by
                simp [isContentBucket, h2.1, h2.2]
              have hl : isListBucket p = false := by
                simp [isListBucket, h3.1, h3.2]
              have hg : isPagBucket p = true := by
                simp [isPagBucket, hb, h4]
              simp only [gcsLoop, if_neg h1, if_neg (by tauto : ¬(p.content_type = ("article") ∨ p.content_type = ("content"))), if_neg (by tauto : ¬(p.content_type = ("list") ∨ p.content_type = ("feed"))), if_pos h4, ih]
              simp [List.filter_cons, hb, hc, hl, hg]
            · push_neg at h2 h3
              have hc : isContentBucket p = false := by
                simp [isContentBucket, h2.1, h2.2]
              have hl : isListBucket p = false := by
                simp [isListBucket, h3.1, h3.2]
              have hg : isPagBucket p = false := by
                simp [isPagBucket, h4]
              simp only [gcsLoop, if_neg h1, if_neg (by tauto : ¬(p.content_type = ("article") ∨ p.content_type = ("content"))), if_neg (by tauto : ¬(p.content_type = ("list") ∨ p.content_type = ("feed"))), if_neg h4, ih]
              simp [List.filter_cons, hb, hc, hl, hg]

/-- Claim C8: in `get_crawl_suggestions`, a pattern scoring below 0.3 has its
selector in `ignore_selectors` and (selectors being unique) in no other
bucket; a `pagination` pattern scoring at least 0.3 has its selector in
`pagination_selectors` and in no other bucket. -/
theorem C8_suggestion_bucketing (ps : List ContentPatternQ)
    (p : ContentPatternQ) (hp : p ∈ ps)
    (hnd : (ps.map (fun q => q.selector)).Nodup) :
    (p.importance_score < 3 / 10 →
      p.selector ∈ (ContentAnalyzer.get_crawl_suggestions ps).ignore_selectors ∧
      p.selector ∉ (ContentAnalyzer.get_crawl_suggestions ps).content_selectors ∧
      p.selector ∉ (ContentAnalyzer.get_crawl_suggestions ps).list_selectors ∧
      p.selector ∉ (ContentAnalyzer.get_crawl_suggestions ps).pagination_selectors) ∧
    (p.content_type = ("pagination") → 3 / 10 ≤ p.importance_score →
      p.selector ∈ (ContentAnalyzer.get_crawl_suggestions ps).pagination_selectors ∧
      p.selector ∉ (ContentAnalyzer.get_crawl_suggestions ps).ignore_selectors ∧
      p.selector ∉ (ContentAnalyzer.get_crawl_suggestions ps).content_selectors ∧
      p.selector ∉ (ContentAnalyzer.get_crawl_suggestions ps).list_selectors) := by
  have hinj := List.inj_on_of_nodup_map hnd
  have mem_bucket : ∀ f : ContentPatternQ → Bool, f p = true →
      p.selector ∈ (ps.filter f).map (fun q => q.selector) := by
    intro f hf
    exact List.mem_map_of_mem _ (List.mem_filter.mpr ⟨hp, hf⟩)
  have not_mem_bucket : ∀ f : ContentPatternQ → Bool, f p = false →
      p.selector ∉ (ps.filter f).map (fun q => q.selector) := by
    intro f hf hmem
    obtain ⟨q, hq, hqe⟩ := List.mem_map.mp hmem
    obtain ⟨hq1, hq2⟩ := List.mem_filter.mp hq
    have hqp : q = p := hinj hq1 hp hqe
    rw [hqp, hf] at hq2
    exact Bool.false_ne_true hq2
  unfold ContentAnalyzer.get_crawl_suggestions
  rw [gcsLoop_eq]
  simp only [List.nil_append]
  constructor
  · intro h1
    have hb : isIgnoreBucket p = true := by simp [isIgnoreBucket, h1]
    refine ⟨mem_bucket _ hb, not_mem_bucket _ ?_, not_mem_bucket _ ?_,
      not_mem_bucket _ ?_⟩
    · simp [isContentBucket, hb]
    · simp [isListBucket, hb]
    · simp [isPagBucket, hb]
  · intro h2 h3
    have h1 : ¬ p.importance_score < 3 / 10 := not_lt.mpr h3
    have hb : isIgnoreBucket p = false := by simp [isIgnoreBucket, h1]
    have hg : isPagBucket p = true := by simp [isPagBucket, hb, h2]
    refine ⟨mem_bucket _ hg, not_mem_bucket _ hb, not_mem_bucket _ ?_,
      not_mem_bucket _ ?_⟩
    · simp [isContentBucket, h2]
    · simp [isListBucket, h2]

/-- Witness for C8: with a 0.2-scored pattern `a` and a 0.5-scored pagination
pattern `b`, the `b` selector lands exactly in `pagination_selectors`. -/
theorem C8_suggestion_bucketing_witness :
    ("b") ∈ (ContentAnalyzer.get_crawl_suggestions [c8p1, c8p2]).pagination_selectors ∧
    ("b") ∉ (ContentAnalyzer.get_crawl_suggestions [c8p1, c8p2]).ignore_selectors ∧
    ("b") ∉ (ContentAnalyzer.get_crawl_suggestions [c8p1, c8p2]).content_selectors ∧
    ("b") ∉ (ContentAnalyzer.get_crawl_suggestions [c8p1, c8p2]).list_selectors :=
  (C8_suggestion_bucketing [c8p1, c8p2] c8p2 (by simp) (by decide)).2 rfl
    (by norm_num [c8p2])

/-- Helper: the language of the empty piece is the empty prefix. -/
theorem msound_mEps : MSound mEps (fun pre => pre = []) := by
  intro s r
  constructor
  · intro h
    have : r = s := by simpa [mEps] using h
    exact ⟨[], by simp [this], rfl⟩
  · rintro ⟨pre, hs, rfl⟩
    simp [mEps, hs]

/-- Helper: the language of a single-character piece. -/
theorem msound_mOne (p : Char → Bool) :
    MSound (mOne p) (fun pre => ∃ c, pre = [c] ∧ p c = true) := by
  intro s r
  cases s with
  | nil =>
      simp only [mOne, List.not_mem_nil, false_iff]
      rintro ⟨pre, hs, c, rfl, _⟩
      simp at hs
  | cons c cs =>
      by_cases hp : p c
      · simp only [mOne, hp, if_true, List.mem_singleton]
        constructor
        · rintro rfl
          exact ⟨[c], rfl, c, rfl, hp⟩
        · rintro ⟨pre, hs, c2, rfl, hc2⟩
          simp at hs
          rw [hs.2]
      · have hp2 : p c = false := by simpa using hp
        simp only [mOne, hp2, Bool.false_eq_true, if_false, List.not_mem_nil,
          false_iff]
        rintro ⟨pre, hs, c2, rfl, hc2⟩
        simp at hs
        rw [hs.1, hc2] at hp2
        simp at hp2

/-- Helper: the language of a concatenation. -/
theorem msound_mSeq {a b : RegexM} {La Lb : List Char → Prop}
    (ha : MSound a La) (hb : MSound b Lb) :
    MSound (mSeq a b) (fun pre => ∃ x y, pre = x ++ y ∧ La x ∧ Lb y) := by
  intro s r
  simp only [mSeq, List.mem_flatMap]
  constructor
  · rintro ⟨m, hm, hr⟩
    obtain ⟨x, hs, hx⟩ := (ha s m).mp hm
    obtain ⟨y, hm2, hy⟩ := (hb m r).mp hr
    refine ⟨x ++ y, ?_, x, y, rfl, hx, hy⟩
    rw [hs, hm2, List.append_assoc]
  · rintro ⟨pre, hs, x, y, rfl, hx, hy⟩
    exact ⟨y ++ r,
      (ha s (y ++ r)).mpr ⟨x, by rw [hs, List.append_assoc], hx⟩,
      (hb (y ++ r) r).mpr ⟨y, rfl, hy⟩⟩

/-- Helper: the language of an alternation. -/
theorem msound_mAlt {a b : RegexM} {La Lb : List Char → Prop}
    (ha : MSound a La) (hb : MSound b Lb) :
    MSound (mAlt a b) (fun pre => La pre ∨ Lb pre) := by
  intro s r
  simp only [mAlt, List.mem_append, ha s r, hb s r]
  constructor
  · rintro (⟨pre, hs, h⟩ | ⟨pre, hs, h⟩)
    · exact ⟨pre, hs, Or.inl h⟩
    · exact ⟨pre, hs, Or.inr h⟩
  · rintro ⟨pre, hs, h | h⟩
    · exact Or.inl ⟨pre, hs, h⟩
    · exact Or.inr ⟨pre, hs, h⟩

/-- Helper: the language of an optional piece. -/
theorem msound_mOpt {a : RegexM} {La : List Char → Prop} (ha : MSound a La) :
    MSound (mOpt a) (fun pre => La pre ∨ pre = []) :=
  msound_mAlt ha msound_mEps

/-- Helper: a piece's language can be replaced by an equivalent one. -/
theorem msound_congr {a : RegexM} {L L2 : List Char → Prop}
    (h : MSound a L) (he : ∀ pre, L pre ↔ L2 pre) : MSound a L2 := by
  intro s r
  rw [h s r]
  constructor
  · rintro ⟨pre, hs, hp⟩
    exact ⟨pre, hs, (he pre).mp hp⟩
  · rintro ⟨pre, hs, hp⟩
    exact ⟨pre, hs, (he pre).mpr hp⟩

/-- Helper: the language of a case-insensitive literal. -/
theorem msound_mLitCI : ∀ lit, MSound (mLitCI lit) (LitCIMatch lit)
  | [] => by
      refine msound_congr msound_mEps ?_
      intro pre
      simp [LitCIMatch]
  | c :: cs => by
      refine msound_congr (msound_mSeq (msound_mOne (eqCI c)) (msound_mLitCI cs)) ?_
      intro pre
      constructor
      · rintro ⟨x, y, rfl, ⟨ch, rfl, hch⟩, hy⟩
        exact ⟨ch, y, rfl, hch, hy⟩
      · rintro ⟨ch, rest, rfl, hch, hrest⟩
        exact ⟨[ch], rest, rfl, ⟨ch, rfl, hch⟩, hrest⟩

/-- Helper: the language of a bounded character-class repetition. -/
theorem msound_mClassUpTo (p : Char → Bool) :
    ∀ n, MSound (mClassUpTo p n)
      (fun pre => pre.length ≤ n ∧ ∀ c ∈ pre, p c = true)
  | 0 => by
      refine msound_congr msound_mEps ?_
      intro pre
      constructor
      · rintro rfl
        simp
      · rintro ⟨h1, _⟩
        exact List.length_eq_zero.mp (Nat.le_zero.mp h1)
  | n + 1 => by
      intro s r
      cases s with
      | nil =>
          constructor
          · intro h
            have : r = [] := by
              simpa [mClassUpTo] using h
            exact ⟨[], by simp [this], by simp, by simp⟩
          · rintro ⟨pre, hs, _, _⟩
            have : pre = [] ∧ r = [] := by simpa using hs.symm
            simp [mClassUpTo, this.2]
      | cons c cs =>
          by_cases hp : p c
          · have ih := msound_mClassUpTo p n cs r
            constructor
            · intro hmem
              rcases (show r = c :: cs ∨ r ∈ mClassUpTo p n cs by
                  simpa [mClassUpTo, hp] using hmem) with rfl | hmem2
              · exact ⟨[], rfl, by simp, by simp⟩
              · obtain ⟨pre, hcs, hlen, hall⟩ := ih.mp hmem2
                refine ⟨c :: pre, by rw [hcs]; rfl, by simpa using hlen, ?_⟩
                intro x hx
                rcases List.mem_cons.mp hx with rfl | hx2
                · exact hp
                · exact hall x hx2
            · rintro ⟨pre, hs, hlen, hall⟩
              cases pre with
              | nil =>
                  have : r = c :: cs := by simpa using hs.symm
                  simp [mClassUpTo, this]
              | cons c2 pre2 =>
                  have hc2 : c2 = c ∧ cs = pre2 ++ r := by
                    constructor
                    · exact (List.cons.injEq c cs c2 (pre2 ++ r) ▸ hs).1.symm
                    · exact (List.cons.injEq c cs c2 (pre2 ++ r) ▸ hs).2
                  have hmem2 := ih.mpr ⟨pre2, hc2.2, by simpa using hlen,
                    fun x hx => hall x (List.mem_cons_of_mem c2 hx)⟩
                  simp [mClassUpTo, hp, hmem2]
          · have hp2 : p c = false := by simpa using hp
            constructor
            · intro hmem
              have : r = c :: cs := by
                simpa [mClassUpTo, hp2] using hmem
              exact ⟨[], by simp [this], by simp, by simp⟩
            · rintro ⟨pre, hs, hlen, hall⟩
              cases pre with
              | nil =>
                  have : r = c :: cs := by simpa using hs.symm
                  simp [mClassUpTo, this]
              | cons c2 pre2 =>
                  have hc2 : c2 = c := by
                    exact ((List.cons.injEq c cs c2 (pre2 ++ r) ▸ hs).1).symm
                  have := hall c2 (List.mem_cons_self c2 pre2)
                  rw [hc2, hp2] at this
                  simp at this

/-- Helper: the language of one-or-more characters of a class. -/
theorem mClassPlusAux_mem (p : Char → Bool) :
    ∀ s r, r ∈ mClassPlusAux p s ↔
      ∃ pre, s = pre ++ r ∧ pre ≠ [] ∧ ∀ c ∈ pre, p c = true
  | [], r => by
      simp only [mClassPlusAux, List.not_mem_nil, false_iff]
      rintro ⟨pre, hs, hne, _⟩
      exact hne (List.append_eq_nil.mp hs.symm).1
  | c :: cs, r => by
      by_cases hp : p c
      · constructor
        · intro hmem
          rcases (show r = cs ∨ r ∈ mClassPlusAux p cs by
              simpa [mClassPlusAux, hp] using hmem) with rfl | hmem2
          · exact ⟨[c], rfl, by simp, by simp [hp]⟩
          · obtain ⟨pre, hcs, hne, hall⟩ := (mClassPlusAux_mem p cs r).mp hmem2
            refine ⟨c :: pre, by rw [hcs]; rfl, by simp, ?_⟩
            intro x hx
            rcases List.mem_cons.mp hx with rfl | hx2
            · exact hp
            · exact hall x hx2
        · rintro ⟨pre, hs, hne, hall⟩
          cases pre with
          | nil => exact absurd rfl hne
          | cons c2 pre2 =>
              have he := List.cons.injEq c cs c2 (pre2 ++ r) ▸ hs
              cases pre2 with
              | nil =>
                  have h2 : cs = r := by simpa using he.2
                  simp [mClassPlusAux, hp, h2]
              | cons c3 pre3 =>
                  have hmem2 := (mClassPlusAux_mem p cs r).mpr
                    ⟨c3 :: pre3, he.2, by simp,
                      fun x hx => hall x (List.mem_cons_of_mem c2 hx)⟩
                  simp [mClassPlusAux, hp, hmem2]
      · have hp2 : p c = false := by simpa using hp
        simp only [mClassPlusAux, hp2, Bool.false_eq_true, if_false,
          List.not_mem_nil, false_iff]
        rintro ⟨pre, hs, hne, hall⟩
        cases pre with
        | nil => exact hne rfl
        | cons c2 pre2 =>
            have hc2 : c2 = c := ((List.cons.injEq c cs c2 (pre2 ++ r) ▸ hs).1).symm
            have := hall c2 (List.mem_cons_self c2 pre2)
            rw [hc2, hp2] at this
            simp at this

/-- Helper: `MSound` form of the one-or-more class piece. -/
theorem msound_mClassPlus (p : Char → Bool) :
    MSound (mClassPlus p) (fun pre => pre ≠ [] ∧ ∀ c ∈ pre, p c = true) := by
  intro s r
  exact mClassPlusAux_mem p s r

/-- Helper: the language of a fuel-bounded one-or-more repetition: some
positive number of pieces, at most `fuel` of them. -/
theorem msound_mPlusFuel {a : RegexM} {La : List Char → Prop}
    (ha : MSound a La) :
    ∀ fuel, MSound (mPlusFuel a fuel)
      (fun pre => ∃ k, k + 1 ≤ fuel ∧ RepN La (k + 1) pre)
  | 0 => by
      intro s r
      simp only [mPlusFuel, List.not_mem_nil, false_iff]
      rintro ⟨pre, _, k, hk, _⟩
      omega
  | fuel + 1 => by
      intro s r
      have ih := msound_mPlusFuel ha fuel
      simp only [mPlusFuel, List.mem_flatMap, List.mem_cons]
      constructor
      · rintro ⟨m, hm, rfl | hr⟩
        · obtain ⟨x, hs, hx⟩ := (ha s r).mp hm
          exact ⟨x, hs, 0, by omega, x, [], (List.append_nil x).symm, hx, rfl⟩
        · obtain ⟨x, hs, hx⟩ := (ha s m).mp hm
          obtain ⟨pre2, hm2, k2, hk2, hrep⟩ := (ih m r).mp hr
          refine ⟨x ++ pre2, ?_, k2 + 1, by omega, x, pre2, rfl, hx, hrep⟩
          rw [hs, hm2, List.append_assoc]
      · rintro ⟨pre, hs, k, hk, x, y, rfl, hx, hrep⟩
        cases k with
        | zero =>
            have hy : y = [] := hrep
            subst hy
            refine ⟨r, ?_, Or.inl rfl⟩
            exact (ha s r).mpr ⟨x, by simpa using hs, hx⟩
        | succ k2 =>
            refine ⟨y ++ r,
              (ha s (y ++ r)).mpr ⟨x, by rw [hs, List.append_assoc], hx⟩,
              Or.inr ?_⟩
            exact (ih (y ++ r) r).mpr ⟨y, rfl, k2, by omega, hrep⟩

/-- Helper: case-insensitive literal matches concatenate. -/
theorem litCIMatch_append : ∀ (l1 l2 p1 p2 : List Char),
    LitCIMatch l1 p1 → LitCIMatch l2 p2 → LitCIMatch (l1 ++ l2) (p1 ++ p2)
  | [], _, p1, _, h1, h2 => by
      have : p1 = [] := h1
      subst this
      simpa using h2
  | c :: cs, l2, _, p2, h1, h2 => by
      obtain ⟨x, rest, rfl, hx, hrest⟩ := h1
      exact ⟨x, rest ++ p2, rfl, hx, litCIMatch_append cs l2 rest p2 hrest h2⟩

/-- Helper: a case-insensitive match of a concatenated literal splits. -/
theorem litCIMatch_append_elim : ∀ (l1 l2 p : List Char),
    LitCIMatch (l1 ++ l2) p →
    ∃ p1 p2, p = p1 ++ p2 ∧ LitCIMatch l1 p1 ∧ LitCIMatch l2 p2
  | [], _, p, h => ⟨[], p, rfl, rfl, h⟩
  | c :: cs, l2, _, h => by
      obtain ⟨x, rest, rfl, hx, hrest⟩ := h
      obtain ⟨p1, p2, rfl, hp1, hp2⟩ := litCIMatch_append_elim cs l2 rest hrest
      exact ⟨x :: p1, p2, rfl, ⟨x, p1, rfl, hx, hp1⟩, hp2⟩

/-- Helper: the three scheme pieces of the pattern assemble into a well-formed
scheme. -/
theorem isSchemeCI_intro {a b c : List Char}
    (ha : LitCIMatch (("http").data) a)
    (hb : b = [] ∨ ∃ c5, b = [c5] ∧ eqCI ('s') c5 = true)
    (hc : LitCIMatch (("://").data) c) : IsSchemeCI (a ++ (b ++ c)) := by
  rcases hb with rfl | ⟨c5, rfl, hc5⟩
  · left
    rw [show ("http://").data = ("http").data ++ ("://").data by decide]
    simpa using litCIMatch_append _ _ _ _ ha hc
  · right
    rw [show ("https://").data = ("http").data ++ (('s') :: ("://").data)
      by decide]
    exact litCIMatch_append _ _ _ _ ha ⟨c5, c, rfl, hc5, hc⟩

/-- Helper: a well-formed scheme splits into the pattern's three scheme
pieces. -/
theorem isSchemeCI_elim {sch : List Char} (h : IsSchemeCI sch) :
    ∃ a b c, sch = a ++ (b ++ c) ∧ LitCIMatch (("http").data) a ∧
      (b = [] ∨ ∃ c5, b = [c5] ∧ eqCI ('s') c5 = true) ∧
      LitCIMatch (("://").data) c := by
  rcases h with h | h
  · rw [show ("http://").data = ("http").data ++ ("://").data by decide] at h
    obtain ⟨a, c, rfl, hA, hC⟩ := litCIMatch_append_elim _ _ _ h
    exact ⟨a, [], c, by simp, hA, Or.inl rfl, hC⟩
  · rw [show ("https://").data = ("http").data ++ (('s') :: ("://").data)
      by decide] at h
    obtain ⟨a, rest, rfl, hA, hrest⟩ := litCIMatch_append_elim _ _ _ h
    obtain ⟨c5, c, rfl, hc5, hC⟩ := hrest
    exact ⟨a, [c5], c, rfl, hA, Or.inr ⟨c5, rfl, hc5⟩, hC⟩

/-- Helper: `RepN` respects pointwise-equivalent piece languages. -/
theorem repN_congr {L1 L2 : List Char → Prop} (he : ∀ x, L1 x → L2 x) :
    ∀ k pre, RepN L1 k pre → RepN L2 k pre
  | 0, _, h => h
  | k + 1, _, ⟨x, y, hxy, hx, hrep⟩ =>
      ⟨x, y, hxy, he x hx, repN_congr he k y hrep⟩

/-- Helper: with nonempty pieces, the piece count is at most the total
length. -/
theorem repN_le_length {L : List Char → Prop} (hne : ∀ x, L x → x ≠ []) :
    ∀ k pre, RepN L k pre → k ≤ pre.length
  | 0, _, _ => Nat.zero_le _
  | k + 1, pre, ⟨x, y, hxy, hx, hrep⟩ => by
      have h1 := repN_le_length hne k y hrep
      have h2 : 1 ≤ x.length := List.length_pos.mpr (hne x hx)
      subst hxy
      simp only [List.length_append]
      omega

/-- Helper: a label-with-dot piece is never empty. -/
theorem labelDotL_ne_nil {x : List Char} (h : LabelDotL x) : x ≠ [] := by
  obtain ⟨body, rfl, _⟩ := h
  simp

/-- Helper: the language of the literal-dot piece. -/
theorem msound_mDot :
    MSound (mOne (fun c => c == ('.'))) (fun x => x = [('.')]) := by
  refine msound_congr (msound_mOne _) ?_
  intro pre
  constructor
  · rintro ⟨c, rfl, hc⟩
    simp [eq_of_beq hc]
  · rintro rfl
    exact ⟨('.'), rfl, by simp⟩

/-- Helper: the language of one domain label with its dot. -/
theorem msound_mLabelDot : MSound mLabelDot LabelDotL := by
  refine msound_congr (msound_mSeq (msound_mOne isAlnumCI)
    (msound_mSeq (msound_mOpt (msound_mSeq (msound_mClassUpTo isAlnumDashCI 61)
      (msound_mOne isAlnumCI))) msound_mDot)) ?_
  intro pre
  constructor
  · rintro ⟨p1, q1, rfl, ⟨c, rfl, hc⟩, m, n, rfl, hm, rfl⟩
    rcases hm with ⟨mm, ee, rfl, ⟨hlen, hall⟩, d, rfl, hd⟩ | rfl
    · refine ⟨c :: mm ++ [d], by simp, Or.inr ⟨c, mm, d, rfl, hc, hd, hlen, hall⟩⟩
    · exact ⟨[c], by simp, Or.inl ⟨c, rfl, hc⟩⟩
  · rintro ⟨body, rfl, hbody⟩
    rcases hbody with ⟨c, rfl, hc⟩ | ⟨c, mid, d, rfl, hc, hd, hlen, hall⟩
    · exact ⟨[c], [('.')], rfl, ⟨c, rfl, hc⟩, [], [('.')], rfl, Or.inr rfl, rfl⟩
    · exact ⟨[c], (mid ++ [d]) ++ [('.')], by simp, ⟨c, rfl, hc⟩,
        mid ++ [d], [('.')], rfl,
        Or.inl ⟨mid, [d], rfl, ⟨hlen, hall⟩, d, rfl, hd⟩, rfl⟩

/-- Helper: the language of the TLD piece. -/
theorem msound_mTld : MSound mTld IsTld := by
  refine msound_congr (msound_mSeq (msound_mOne isAlphaCI)
    (msound_mSeq (msound_mOne isAlphaCI) (msound_mClassUpTo isAlphaCI 4))) ?_
  intro pre
  constructor
  · rintro ⟨x, y, rfl, ⟨c1, rfl, h1⟩, x2, y2, rfl, ⟨c2, rfl, h2⟩, hlen, hall⟩
    refine ⟨by simp, by simp; omega, ?_⟩
    intro z hz
    simp only [List.singleton_append, List.mem_cons] at hz
    rcases hz with rfl | rfl | hz2
    · exact h1
    · exact h2
    · exact hall z hz2
  · rintro ⟨h2le, hle6, hall⟩
    cases pre with
    | nil => simp at h2le
    | cons c1 rest =>
        cases rest with
        | nil => simp at h2le
        | cons c2 y2 =>
            refine ⟨[c1], c2 :: y2, rfl, ⟨c1, rfl, hall c1 (by simp)⟩,
              [c2], y2, rfl, ⟨c2, rfl, hall c2 (by simp)⟩, ?_,
              fun z hz => hall z (by simp [hz])⟩
            simp at hle6
            omega

/-- Helper: the language of one dotted-quad digit group. -/
theorem msound_mOctet : MSound mOctet IsOctet := by
  refine msound_congr (msound_mSeq (msound_mOne isDigitChar)
    (msound_mClassUpTo isDigitChar 2)) ?_
  intro pre
  constructor
  · rintro ⟨x, y, rfl, ⟨c, rfl, hc⟩, hlen, hall⟩
    refine ⟨by simp, by simp; omega, ?_⟩
    intro z hz
    simp only [List.singleton_append, List.mem_cons] at hz
    rcases hz with rfl | hz2
    · exact hc
    · exact hall z hz2
  · rintro ⟨h1, h3, hall⟩
    cases pre with
    | nil => simp at h1
    | cons c y =>
        refine ⟨[c], y, rfl, ⟨c, rfl, hall c (by simp)⟩, ?_,
          fun z hz => hall z (by simp [hz])⟩
        simp at h3
        omega

/-- Helper: the language of the dotted-IPv4 alternative. -/
theorem msound_mIpv4 : MSound mIpv4 IsIpv4L := by
  refine msound_congr (msound_mSeq msound_mOctet (msound_mSeq msound_mDot
    (msound_mSeq msound_mOctet (msound_mSeq msound_mDot
      (msound_mSeq msound_mOctet (msound_mSeq msound_mDot
        msound_mOctet)))))) ?_
  intro pre
  constructor
  · rintro ⟨o1, y1, rfl, h1, x2, y2, rfl, rfl, o2, y3, rfl, h2, x4, y4, rfl,
      rfl, o3, y5, rfl, h3, x6, o4, rfl, rfl, h4⟩
    exact ⟨o1, o2, o3, o4, rfl, h1, h2, h3, h4⟩
  · rintro ⟨o1, o2, o3, o4, rfl, h1, h2, h3, h4⟩
    exact ⟨o1, _, rfl, h1, [('.')], _, rfl, rfl, o2, _, rfl, h2, [('.')], _,
      rfl, rfl, o3, _, rfl, h3, [('.')], o4, rfl, rfl, h4⟩

/-- Helper: the language of the optional port. -/
theorem msound_mPort : MSound mPort IsPortL := by
  refine msound_congr (msound_mOpt (msound_mSeq
    (msound_mOne (fun c => c == (':'))) (msound_mClassPlus isDigitChar))) ?_
  intro pre
  constructor
  · rintro (⟨x, y, rfl, ⟨c, rfl, hc⟩, hne, hall⟩ | rfl)
    · right
      refine ⟨y, ?_, hne, hall⟩
      simp [eq_of_beq hc]
    · left
      rfl
  · rintro (rfl | ⟨ds, rfl, hne, hall⟩)
    · right
      rfl
    · left
      exact ⟨[(':')], ds, rfl, ⟨(':'), rfl, by simp⟩, hne, hall⟩

/-- Helper: the language of the path/query tail. -/
theorem msound_mTail : MSound mTail IsTailL := by
  refine msound_congr (msound_mAlt
    (msound_mOpt (msound_mOne (fun c => c == ('/'))))
    (msound_mSeq (msound_mOne (fun c => c == ('/') || c == ('?')))
      (msound_mClassPlus isNonSpace))) ?_
  intro pre
  constructor
  · rintro ((⟨c, rfl, hc⟩ | rfl) | ⟨x, y, rfl, ⟨c, rfl, hc⟩, hne, hall⟩)
    · right
      left
      simp [eq_of_beq hc]
    · left
      rfl
    · right
      right
      refine ⟨c, y, rfl, ?_, hne, hall⟩
      simpa using hc
  · rintro (rfl | rfl | ⟨c, rest, rfl, hcor, hne, hall⟩)
    · left
      right
      rfl
    · left
      left
      exact ⟨('/'), rfl, by simp⟩
    · right
      refine ⟨[c], rest, rfl, ⟨c, rfl, ?_⟩, hne, hall⟩
      rcases hcor with rfl | rfl <;> simp

/-- Helper: the language of the host alternation, with the label-repetition
count bounded by the fuel. -/
theorem msound_mHost (bound : Nat) : MSound (mHost bound) (HostLB bound) := by
  refine msound_congr (msound_mAlt
    (msound_mSeq (msound_mPlusFuel msound_mLabelDot bound)
      (msound_mSeq msound_mTld (msound_mOpt msound_mDot)))
    (msound_mAlt (msound_mLitCI (("localhost").data)) msound_mIpv4)) ?_
  intro pre
  constructor
  · rintro (⟨labels, y, rfl, ⟨k, hk, hrep⟩, t, d, rfl, htld, hd⟩ | h | h)
    · exact Or.inl ⟨k, hk, labels, t, d, rfl, hrep, htld, hd.symm⟩
    · exact Or.inr (Or.inl h)
    · exact Or.inr (Or.inr h)
  · rintro (⟨k, hk, labels, t, d, rfl, hrep, htld, hd⟩ | h | h)
    · exact Or.inl ⟨labels, t ++ d, rfl, ⟨k, hk, hrep⟩, t, d, rfl, htld, hd.symm⟩
    · exact Or.inr (Or.inl h)
    · exact Or.inr (Or.inr h)

/-- Helper: dropping the fuel bound from a bounded host yields the spec's
host predicate. -/
theorem hostLB_drop {bound : Nat} {h : List Char} (hh : HostLB bound h) :
    IsHostL h := by
  rcases hh with ⟨k, _, labels, t, d, rfl, hrep, htld, hd⟩ | h2 | h2
  · exact Or.inl ⟨k, labels, t, d, rfl, hrep, htld, hd⟩
  · exact Or.inr (Or.inl h2)
  · exact Or.inr (Or.inr h2)

/-- Helper: a well-formed host shorter than the fuel satisfies the bounded
predicate (each dot-terminated label is nonempty, so the label count is at
most the host length). -/
theorem isHostL_bounded {bound : Nat} {h : List Char} (hh : IsHostL h)
    (hlen : h.length < bound) : HostLB bound h := by
  rcases hh with ⟨k, labels, t, d, rfl, hrep, htld, hd⟩ | h2 | h2
  · refine Or.inl ⟨k, ?_, labels, t, d, rfl, hrep, htld, hd⟩
    have h1 := repN_le_length (fun x hx => labelDotL_ne_nil hx) (k + 1) labels hrep
    simp only [List.length_append] at hlen
    omega
  · exact Or.inr (Or.inl h2)
  · exact Or.inr (Or.inr h2)

/-- Helper: full characterization of `validate_url` — it accepts exactly the
spec's well-formed URLs (http/https scheme; domain-with-TLD, localhost, or
dotted-IPv4 host; optional port; optional path/query), rejecting everything
else. -/
theorem validate_url_iff (u : String) :
    Spider.validate_url u = true ↔ WellFormedUrlCI u := by
  have hfull := msound_mSeq (msound_mLitCI (("http").data))
    (msound_mSeq (msound_mOpt (msound_mOne (eqCI ('s'))))
      (msound_mSeq (msound_mLitCI (("://").data))
        (msound_mSeq (msound_mHost (u.data.length + 1))
          (msound_mSeq msound_mPort msound_mTail))))
  constructor
  · intro h
    have h2 : (urlRegexMatch u.data).any
        (fun r => r == [] || r == [('\n')]) = true := h
    obtain ⟨r, hr, hend⟩ := List.any_eq_true.mp h2
    have hend2 : IsEndL r := by simpa [IsEndL] using hend
    have hr2 : r ∈ (mSeq (mLitCI (("http").data))
        (mSeq (mOpt (mOne (eqCI ('s'))))
          (mSeq (mLitCI (("://").data))
            (mSeq (mHost (u.data.length + 1))
              (mSeq mPort mTail))))) u.data := hr
    obtain ⟨pre, hs, a, y1, rfl, hA, b, y2, rfl, hB, c, y3, rfl, hC,
      host, y4, rfl, hH, port, tail, rfl, hP, hT⟩ := (hfull u.data r).mp hr2
    refine ⟨a ++ (b ++ c), host, port, tail, r, ?_,
      isSchemeCI_intro hA ?_ hC, hostLB_drop hH, hP, hT, hend2⟩
    · rw [hs]
      simp [List.append_assoc]
    · rcases hB with hB | hB
      · exact Or.inr hB
      · exact Or.inl hB
  · rintro ⟨scheme, host, port, tail, endl, hu, hsch, hhost, hport, htail, hend⟩
    obtain ⟨a, b, c, rfl, hA, hB, hC⟩ := isSchemeCI_elim hsch
    have hlen : host.length < u.data.length + 1 := by
      rw [hu]
      simp only [List.length_append]
      omega
    have hhostb := isHostL_bounded hhost hlen
    have hoptb : (∃ c5, b = [c5] ∧ eqCI ('s') c5 = true) ∨ b = [] := by
      rcases hB with rfl | hB2
      · exact Or.inr rfl
      · exact Or.inl hB2
    have hr : endl ∈ (mSeq (mLitCI (("http").data))
        (mSeq (mOpt (mOne (eqCI ('s'))))
          (mSeq (mLitCI (("://").data))
            (mSeq (mHost (u.data.length + 1))
              (mSeq mPort mTail))))) u.data :=
      (hfull u.data endl).mpr
        ⟨a ++ (b ++ (c ++ (host ++ (port ++ tail)))),
          by rw [hu]; simp [List.append_assoc],
          a, _, rfl, hA, b, _, rfl, hoptb, c, _, rfl, hC,
          host, _, rfl, hhostb, port, tail, rfl, hport, htail⟩
    show (urlRegexMatch u.data).any (fun r => r == [] || r == [('\n')]) = true
    apply List.any_eq_true.mpr
    refine ⟨endl, hr, ?_⟩
    rcases hend with rfl | rfl <;> simp

/-- Claim C5: `validate_url` accepts both well-formed example URLs, rejects
the malformed, wrong-scheme and empty examples, and in general accepts
exactly the well-formed URLs: an `http`/`https` scheme with a well-formed
host (domain-with-TLD, `localhost`, or dotted IPv4), an optional port and an
optional path/query — rejecting everything else (modulo Python's `$`
trailing-newline tolerance, all case-insensitively). -/
theorem C5_url_validation :
    Spider.validate_url ("http://example.com") = true ∧
    Spider.validate_url ("https://sub.example.com/path?q=1") = true ∧
    Spider.validate_url ("not_a_url") = false ∧
    Spider.validate_url ("ftp://example.com") = false ∧
    Spider.validate_url ("") = false ∧
    ∀ u : String, Spider.validate_url u = true ↔ WellFormedUrlCI u :=
  ⟨by decide, by decide, by decide, by decide, by decide, validate_url_iff⟩

/-- Witness for C5: applying the characterization at a concrete accepted
uppercase URL yields its well-formedness, the acceptance hypothesis
discharged by evaluation. -/
theorem C5_url_validation_witness : WellFormedUrlCI ("HTTPS://EXAMPLE.COM") :=
  (C5_url_validation.2.2.2.2.2 ("HTTPS://EXAMPLE.COM")).mp (by decide)
